import Mathlib

/-!
Shallow embedding of the core of the call-centre-assistant server
(src/server.js): the spreadsheet record parser, the cache refresh
operation, and the local relevance search.  Machine state and external
fetch results are passed explicitly; fallible operations return Except.
-/

set_option maxRecDepth 4000

/-- JavaScript string containment, s.includes(pat): pat occurs as a
contiguous substring of s. -/
def includesSubstr (s pat : String) : Bool :=
  (List.range (s.toList.length + 1)).any
    (fun i => pat.toList.isPrefixOf (s.toList.drop i))

/-- JavaScript toLowerCase, modelled character by character (the data
handled by the server is ASCII). -/
def jsToLower (s : String) : String := String.mk (s.toList.map Char.toLower)

/-- Helper for jsSplitOnSpace: accumulate the current token in reverse. -/
def splitSpaceAux : List Char → List Char → List String
  | [], acc => [String.mk acc.reverse]
  | c :: cs, acc =>
    if c = ' ' then String.mk acc.reverse :: splitSpaceAux cs []
    else splitSpaceAux cs (c :: acc)

/-- JavaScript split with the single-space separator: cut the string at
every space character, keeping empty pieces. -/
def jsSplitOnSpace (s : String) : List String := splitSpaceAux s.toList []

/-- One cell of raw sheet grid data: formattedValue may be absent
(v.formattedValue in the source). -/
structure CellData where
  formattedValue : Option String
  deriving DecidableEq, Repr

/-- One row of raw sheet grid data: the values array may be absent
(row.values in the source). -/
structure RowData where
  values : Option (List CellData)
  deriving DecidableEq, Repr

/-- One grid-data block of a sheet (sheet.data[k] in the source). -/
structure GridData where
  rowData : Option (List RowData)
  deriving DecidableEq, Repr

/-- One sheet of a spreadsheet (an element of sheetData.sheets). -/
structure Sheet where
  data : Option (List GridData)
  deriving DecidableEq, Repr

/-- A whole spreadsheet payload (sheetData in the source); sheets may be
absent, the source defaults it with sheetData.sheets || []. -/
structure Spreadsheet where
  sheets : Option (List Sheet)
  deriving DecidableEq, Repr

/-- A file descriptor from the file-listing source (id, name, mimeType). -/
structure DriveFile where
  id : String
  name : String
  mimeType : String
  deriving DecidableEq, Repr

/-- A parsed pricing record: a JavaScript object, modelled as an
association list in insertion order with distinct keys. -/
abbrev PricingRecord := List (String × String)

/-- v.formattedValue || two-quote empty string. -/
def cellText (c : CellData) : String := c.formattedValue.getD ""

/-- row.values || []. -/
def rowCells (row : RowData) : List CellData := row.values.getD []

/-- sheet.data[0].rowData with each optional-chaining step defaulting
to [] (line 55 of the source). -/
def sheetRows (sheet : Sheet) : List RowData :=
  match (sheet.data.getD []).head? with
  | some g => g.rowData.getD []
  | none => []

/-- The lower-cased join of the formatted cell values of a row with a
pipe separator (cellText at line 64 of the source). -/
def rowJoinedText (row : RowData) : String :=
  jsToLower (String.intercalate "|" ((rowCells row).map cellText))

/-- Header detection test: the joined lower-cased row text contains
the substring model or the substring engine (line 65). -/
def isHeaderRow (row : RowData) : Bool :=
  includesSubstr (rowJoinedText row) "model" || includesSubstr (rowJoinedText row) "engine"

/-- JavaScript object assignment record[key] = value: replace the value
in place when the key is present, otherwise append the pair. -/
def objInsert (record : List (String × String)) (key value : String) :
    List (String × String) :=
  if record.any (fun p => p.1 == key) then
    record.map (fun p => if p.1 == key then (p.1, value) else p)
  else record ++ [(key, value)]

/-- The body of the record-building loop (lines 80-82): given the pair
of the header cell and the formatted value at one column index, assign
record[header] = value when both strings are non-empty (JavaScript
truthiness of strings), otherwise leave the record alone. -/
def recordStep (record : List (String × String)) (hv : String × String) :
    List (String × String) :=
  if hv.1 != "" && hv.2 != "" then objInsert record hv.1 hv.2 else record

/-- The inner record-building loop of parseSheetData (lines 77-83):
for j below both lengths, take header = headerRow[j] and
value = values[j].formattedValue || empty, and assign
record[header] = value when both are non-empty. -/
def buildRecord (headerRow : List String) (values : List CellData) :
    PricingRecord :=
  (List.range (min values.length headerRow.length)).foldl
    (fun record j =>
      recordStep record
        (headerRow.getD j "", cellText (values.getD j { formattedValue := none })))
    []

/-- The per-sheet body of parseSheetData (lines 54-86): skip ranges of
fewer than 2 rows, find the header row among the first 5 rows, then
build one candidate record per later row and keep those with more than
2 keys. -/
def parseSheetRange (rows : List RowData) : List PricingRecord :=
  if rows.length < 2 then []
  else
    match (rows.take 5).findIdx? isHeaderRow with
    | none => []
    | some headerIndex =>
      let headerRow := (rowCells (rows.getD headerIndex { values := none })).map cellText
      ((rows.drop (headerIndex + 1)).map
        (fun row => buildRecord headerRow (rowCells row))).filter
        (fun record => record.length > 2)

/-- parseSheetData (lines 50-90): concatenate the records of every
sheet of the payload. -/
def parseSheetData (sheetData : Spreadsheet) : List PricingRecord :=
  (sheetData.sheets.getD []).flatMap (fun s => parseSheetRange (sheetRows s))

/-- loadRecallPDFs, the part after the fetch (line 46): keep the files
whose mimeType is exactly application/pdf. -/
def loadRecallPDFs (files : List DriveFile) : List DriveFile :=
  files.filter (fun f => f.mimeType == "application/pdf")

/-- The in-memory cache dataCache (lines 11-16). -/
structure DataCache where
  pricingData : List PricingRecord
  recallData : List DriveFile
  lastLoaded : Option Nat
  loading : Bool
  deriving DecidableEq, Repr

/-- The result of the three concurrent fetches of loadDataIntoCache: two
raw spreadsheet payloads and the raw file listing, or the first failure
(Promise.all rejection). -/
abbrev FetchResult := Except String (Spreadsheet × Spreadsheet × List DriveFile)

/-- loadDataIntoCache (lines 93-120): a no-op when a load is already in
progress; otherwise set the loading flag, and on fetch success replace
the pricing data, recall data and timestamp, on failure leave them
untouched and propagate the error; the flag is cleared on both exit
paths by the finally block. -/
def loadDataIntoCache (cache : DataCache) (fetchResult : FetchResult)
    (now : Nat) : DataCache × Except String Unit :=
  if cache.loading then (cache, Except.ok ())
  else
    match fetchResult with
    | Except.ok (sheet1, sheet2, files) =>
      ({ pricingData := parseSheetData sheet1 ++ parseSheetData sheet2,
         recallData := loadRecallPDFs files,
         lastLoaded := some now,
         loading := false }, Except.ok ())
    | Except.error e =>
      ({ cache with loading := false }, Except.error e)

/-- needsCacheRefresh (lines 123-126) with the one-hour duration. -/
def needsCacheRefresh (cache : DataCache) (now : Nat) : Bool :=
  match cache.lastLoaded with
  | none => true
  | some t => decide (now - t > 3600000)

/-- One lower-case hexadecimal digit. -/
def hexDigit (n : Nat) : Char :=
  if n < 10 then Char.ofNat (48 + n) else Char.ofNat (97 + (n - 10))

/-- Four-digit lower-case hexadecimal rendering used by JSON unicode
escapes of control characters. -/
def hex4 (n : Nat) : String :=
  String.mk [hexDigit (n / 4096 % 16), hexDigit (n / 256 % 16),
             hexDigit (n / 16 % 16), hexDigit (n % 16)]

/-- JSON.stringify escaping of one character of a string value. -/
def jsonEscapeChar (c : Char) : String :=
  if c = '"' then "\\\""
  else if c = '\\' then "\\\\"
  else if c = '\x08' then "\\b"
  else if c = '\x09' then "\\t"
  else if c = '\x0a' then "\\n"
  else if c = '\x0c' then "\\f"
  else if c = '\x0d' then "\\r"
  else if c.toNat < 32 then "\\u" ++ hex4 c.toNat
  else String.singleton c

/-- JSON.stringify of a string: surrounding quotes plus escaping. -/
def jsonQuote (s : String) : String :=
  "\"" ++ String.join (s.toList.map jsonEscapeChar) ++ "\""

/-- JSON.stringify of a pricing record (a flat object of string
values), in key insertion order. -/
def jsonStringify (record : PricingRecord) : String :=
  "\x7b" ++ String.intercalate ","
    (record.map (fun p => jsonQuote p.1 ++ ":" ++ jsonQuote p.2)) ++ "\x7d"

/-- The query tokens of searchLocalData and searchRecalls (lines 135 and
158): split the lower-cased query at single spaces and keep the tokens
of length greater than 2. -/
def queryTokens (queryLower : String) : List String :=
  (jsSplitOnSpace queryLower).filter (fun w => w.length > 2)

/-- The per-record score of searchLocalData (lines 134-142): the number
of query tokens, duplicates included, occurring as a substring of the
lower-cased JSON serialization of the record. -/
def scoreRecord (queryLower : String) (record : PricingRecord) : Nat :=
  let recordText := jsToLower (jsonStringify record)
  let words := queryTokens queryLower
  words.foldl (fun score word =>
    if includesSubstr recordText word then score + 1 else score) 0

/-- The loop body of searchLocalData (lines 133-147): pair a record
with its score when the score reaches 2, otherwise drop it. -/
def matchEntry (queryLower : String) (record : PricingRecord) :
    Option (PricingRecord × Nat) :=
  let score := scoreRecord queryLower record
  if score ≥ 2 then some (record, score) else none

/-- searchLocalData (lines 129-151): keep the records scoring at least
2 with their scores in cache order, sort by descending score with the
stable built-in sort, and return the records of the first 5 entries. -/
def searchLocalData (pricingData : List PricingRecord) (query : String) :
    List PricingRecord :=
  let queryLower := jsToLower query
  let matchList := pricingData.filterMap (matchEntry queryLower)
  let sorted := matchList.mergeSort (fun a b => b.2 ≤ a.2)
  (sorted.take 5).map (fun m => m.1)

/-- searchRecalls (lines 154-161): keep the recall files whose
lower-cased name contains some qualifying query token. -/
def searchRecalls (recallData : List DriveFile) (query : String) :
    List DriveFile :=
  let queryLower := jsToLower query
  recallData.filter (fun recallFile =>
    let recallLower := jsToLower recallFile.name
    let words := queryTokens queryLower
    words.any (fun word => includesSubstr recallLower word))

/-! ### Helper constructions for concrete inputs -/

/-- A row whose cells all carry a formatted value. -/
def mkRow (ss : List String) : RowData :=
  { values := some (ss.map (fun s => { formattedValue := some s })) }

/-- A one-range spreadsheet payload with the given rows. -/
def mkSpreadsheet (rows : List RowData) : Spreadsheet :=
  { sheets := some [{ data := some [{ rowData := some rows }] }] }

/-- Spec-side rendering of the trimming words of the specification:
remove surrounding whitespace from a string.  The source applies no
trimming; this definition exists only to state the claim. -/
def trimWS (s : String) : String :=
  String.mk (((s.toList.dropWhile Char.isWhitespace).reverse.dropWhile
    Char.isWhitespace).reverse)

/-- JavaScript test for the presence of a key of an object. -/
def hasKey (record : List (String × String)) (key : String) : Bool :=
  record.any (fun p => p.1 == key)


/-- A concrete payload whose header row matches on the word engine and
whose data row yields a record of 3 fields, none of which is Model. -/
def engineOnlySheet : Spreadsheet :=
  mkSpreadsheet [mkRow ["Engine", "Colour", "Price"], mkRow ["1.5", "Red", "100"]]


/-- A concrete record used by the C7 witness. -/
def interimRecord : PricingRecord :=
  [("Model", "MG HS"), ("Engine", "1.5T"), ("Interim Service", "150")]


/-- A concrete recall file for the C8 witness. -/
def mgRecallFile : DriveFile :=
  { id := "1", name := "MG HS Recall 2023.pdf", mimeType := "application/pdf" }


/-- The record of the duplicate-token scenario of C10. -/
def turboRecord : PricingRecord :=
  [("Model", "MG Turbo"), ("Engine", "1.5"), ("Price", "100")]


/-- The character sequence of the pipe-joined parts. -/
def pipeJoin : List (List Char) → List Char
  | [] => []
  | x :: xs => x ++ xs.flatMap (fun y => '|' :: y)

/-! ### Lemmas about objInsert and the record-building fold -/

lemma mem_objInsert {r : List (String × String)} {k v : String}
    {x : String × String} (hx : x ∈ objInsert r k v) : x ∈ r ∨ x = (k, v) := by
  unfold objInsert at hx
  split at hx
  · rw [List.mem_map] at hx
    obtain ⟨p, hp, he⟩ := hx
    by_cases hk : p.1 == k
    · rw [if_pos hk] at he
      right
      rw [← he]
      exact congrArg (·, v) (eq_of_beq hk)
    · rw [if_neg hk] at he
      exact Or.inl (he ▸ hp)
  · rw [List.mem_append, List.mem_singleton] at hx
    exact hx

lemma hasKey_objInsert_self (r : List (String × String)) (k v : String) :
    hasKey (objInsert r k v) k = true := by
  unfold hasKey objInsert
  split
  next hr =>
    rw [List.any_eq_true] at hr ⊢
    obtain ⟨p, hp, hk⟩ := hr
    refine ⟨if p.1 == k then (p.1, v) else p, List.mem_map_of_mem _ hp, ?_⟩
    rw [if_pos hk]
    exact hk
  next =>
    rw [List.any_eq_true]
    exact ⟨(k, v), List.mem_append_right _ (List.mem_singleton_self _), beq_self_eq_true k⟩

lemma hasKey_objInsert_mono {r : List (String × String)} {k' : String}
    (k v : String) (h : hasKey r k' = true) :
    hasKey (objInsert r k v) k' = true := by
  unfold hasKey objInsert
  unfold hasKey at h
  rw [List.any_eq_true] at h
  obtain ⟨p, hp, hk⟩ := h
  split
  · rw [List.any_eq_true]
    refine ⟨if p.1 == k then (p.1, v) else p, List.mem_map_of_mem _ hp, ?_⟩
    split <;> exact hk
  · rw [List.any_eq_true]
    exact ⟨p, List.mem_append_left _ hp, hk⟩

lemma hasKey_recordStep_mono {r : List (String × String)} {k' : String}
    (hv : String × String) (h : hasKey r k' = true) :
    hasKey (recordStep r hv) k' = true := by
  unfold recordStep
  split
  · exact hasKey_objInsert_mono _ _ h
  · exact h

lemma mem_foldl_recordStep :
    ∀ (l : List (String × String)) (r0 : List (String × String))
      (x : String × String), x ∈ l.foldl recordStep r0 →
      x ∈ r0 ∨ (x ∈ l ∧ x.1 ≠ "" ∧ x.2 ≠ "")
  | [], r0, x, hx => Or.inl hx
  | hv :: t, r0, x, hx => by
    rw [List.foldl_cons] at hx
    rcases mem_foldl_recordStep t (recordStep r0 hv) x hx with hx0 | hxt
    · unfold recordStep at hx0
      split at hx0
      next hcond =>
        rcases mem_objInsert hx0 with hr | he
        · exact Or.inl hr
        · rw [Bool.and_eq_true, bne_iff_ne, bne_iff_ne] at hcond
          refine Or.inr ⟨?_, ?_, ?_⟩
          · rw [he]; exact List.mem_cons_self _ _
          · rw [he]; exact hcond.1
          · rw [he]; exact hcond.2
      next => exact Or.inl hx0
    · exact Or.inr ⟨List.mem_cons_of_mem _ hxt.1, hxt.2⟩

lemma hasKey_foldl_mono :
    ∀ (l : List (String × String)) (r0 : List (String × String)) (k : String),
      hasKey r0 k = true → hasKey (l.foldl recordStep r0) k = true
  | [], _, _, h => h
  | hv :: t, r0, k, h => by
    rw [List.foldl_cons]
    exact hasKey_foldl_mono t _ k (hasKey_recordStep_mono hv h)

lemma hasKey_foldl_of_mem :
    ∀ (l : List (String × String)) (r0 : List (String × String)) (k v : String),
      (k, v) ∈ l → k ≠ "" → v ≠ "" →
      hasKey (l.foldl recordStep r0) k = true
  | [], _, _, _, hm, _, _ => absurd hm (List.not_mem_nil _)
  | hv :: t, r0, k, v, hm, hk, hvne => by
    rw [List.foldl_cons]
    rcases List.mem_cons.mp hm with he | ht
    · apply hasKey_foldl_mono
      rw [← he]
      unfold recordStep
      rw [if_pos]
      · exact hasKey_objInsert_self r0 k v
      · simp only [← he, bne_iff_ne, Bool.and_eq_true]
        exact ⟨hk, hvne⟩
    · exact hasKey_foldl_of_mem t _ k v ht hk hvne

lemma hasKey_iff_exists {r : List (String × String)} {k : String} :
    hasKey r k = true ↔ ∃ v, (k, v) ∈ r := by
  unfold hasKey
  rw [List.any_eq_true]
  constructor
  · rintro ⟨p, hp, he⟩
    exact ⟨p.2, by rwa [← eq_of_beq he]⟩
  · rintro ⟨v, hv⟩
    exact ⟨(k, v), hv, beq_self_eq_true k⟩

lemma foldl_range_eq {α : Type} {β : Type} (f : α → β → α) :
    ∀ (l : List β) (g : Nat → β) (init : α),
      (∀ (j : Nat) (hj : j < l.length), l.get ⟨j, hj⟩ = g j) →
      (List.range l.length).foldl (fun a j => f a (g j)) init = l.foldl f init
  | [], _, _, _ => rfl
  | x :: xs, g, init, h => by
    have h0 : x = g 0 := h 0 (Nat.succ_pos _)
    rw [List.length_cons, List.range_succ_eq_map, List.foldl_cons, List.foldl_map,
      List.foldl_cons, ← h0]
    exact foldl_range_eq f xs (fun j => g (j + 1)) (f init x)
      (fun j hj => h (j + 1) (Nat.succ_lt_succ hj))

lemma buildRecord_eq_foldl (hs : List String) (vs : List CellData) :
    buildRecord hs vs = (hs.zip (vs.map cellText)).foldl recordStep [] := by
  have hlen : (hs.zip (vs.map cellText)).length = min vs.length hs.length := by
    rw [List.length_zip, List.length_map]
    exact Nat.min_comm _ _
  have hget : ∀ (j : Nat) (hj : j < (hs.zip (vs.map cellText)).length),
      (hs.zip (vs.map cellText)).get ⟨j, hj⟩ =
      (hs.getD j "", cellText (vs.getD j { formattedValue := none })) := by
    intro j hj
    have hj1 : j < hs.length := by
      rw [List.length_zip, List.length_map] at hj
      omega
    have hj2 : j < vs.length := by
      rw [List.length_zip, List.length_map] at hj
      omega
    rw [List.get_eq_getElem, List.getElem_zip, List.getElem_map,
      List.getD_eq_getElem hs "" hj1, List.getD_eq_getElem vs _ hj2]
  unfold buildRecord
  rw [← hlen]
  exact foldl_range_eq recordStep (hs.zip (vs.map cellText))
    (fun j => (hs.getD j "", cellText (vs.getD j { formattedValue := none }))) [] hget

/-! ### Claim C9 -/

/-- C9: a range with fewer than 2 rows produces no records, whatever its
rows contain. -/
theorem parseSheetRange_short_eq_nil (rows : List RowData)
    (h : rows.length < 2) : parseSheetRange rows = [] := by
  unfold parseSheetRange
  rw [if_pos h]

/-- Witness for C9: a single-row range whose only row does contain the
word Model still produces no records. -/
theorem parseSheetRange_short_eq_nil_witness :
    ([mkRow ["Model", "Price"]] : List RowData).length < 2 ∧
    isHeaderRow (mkRow ["Model", "Price"]) = true ∧
    parseSheetRange [mkRow ["Model", "Price"]] = [] :=
  ⟨by decide, by decide, parseSheetRange_short_eq_nil _ (by decide)⟩

/-! ### Claim C4 -/

/-- Helper for C4: when no row among the first 5 rows of a range passes
the header test of the source, the range produces no records. -/
lemma parseSheetRange_no_headerRow (rows : List RowData)
    (h : ∀ row ∈ rows.take 5, isHeaderRow row = false) :
    parseSheetRange rows = [] := by
  unfold parseSheetRange
  rw [List.findIdx?_eq_none_iff.mpr h]
  split <;> rfl

/-! ### Claim C1 -/
/-- Counterexample to C1 as stated: the record parser can output a
record carrying no non-empty Model field at all, because the validity
gate of the source only counts fields (more than 2), it never looks for
a Model key. -/
theorem parseSheetData_model_required_counterexample :
    ¬ (∀ r ∈ parseSheetData engineOnlySheet,
        r.any (fun p => p.1 == "Model" && p.2 != "") = true) := by
  decide

/-- C1 as amended: every record in the output of the record parser has
more than 2 fields; a candidate record with at most 2 fields is
discarded and never appears in the pricing sequence. -/
theorem parseSheetData_records_have_three_fields (sd : Spreadsheet)
    (r : PricingRecord) (hr : r ∈ parseSheetData sd) : 2 < r.length := by
  simp only [parseSheetData, List.mem_flatMap] at hr
  obtain ⟨s, -, hr⟩ := hr
  unfold parseSheetRange at hr
  split at hr
  · exact absurd hr (List.not_mem_nil r)
  · split at hr
    next => exact absurd hr (List.not_mem_nil r)
    next =>
      rw [List.mem_filter] at hr
      simpa using hr.2

/-- Witness for the amended C1 at a concrete payload. -/
theorem parseSheetData_records_have_three_fields_witness :
    [("Engine", "1.5"), ("Colour", "Red"), ("Price", "100")] ∈
      parseSheetData engineOnlySheet ∧
    2 < ([("Engine", "1.5"), ("Colour", "Red"), ("Price", "100")] : PricingRecord).length :=
  ⟨by decide, parseSheetData_records_have_three_fields engineOnlySheet _ (by decide)⟩

/-! ### Claim C5 -/

/-- Counterexample to C5 as stated: the source includes a header-value
pair whenever both strings are non-empty, with no trimming, so a value
consisting of one space is kept even though it is empty after trimming
whitespace. -/
theorem buildRecord_trimming_counterexample :
    ¬ (∀ (hs : List String) (vs : List CellData) (p : String × String),
        p ∈ buildRecord hs vs → trimWS p.1 ≠ "" ∧ trimWS p.2 ≠ "") := by
  intro h
  have hm : ("Model", " ") ∈ buildRecord ["Model"] [{ formattedValue := some " " }] := by
    decide
  exact (h _ _ _ hm).2 (by decide)

/-- C5 as amended: a data row record is built by zipping header cells
with row cells up to the shorter length, and a header-value pair is
included exactly when both the header cell and the value cell are
non-empty strings (without trimming): every pair of the record comes
from a column index below both lengths with both strings non-empty, and
every such column index contributes its header as a key of the
record. -/
theorem buildRecord_pairs_characterization (hs : List String) (vs : List CellData) :
    (∀ p ∈ buildRecord hs vs, p.1 ≠ "" ∧ p.2 ≠ "" ∧
      ∃ j, j < min vs.length hs.length ∧ hs.getD j "" = p.1 ∧
        cellText (vs.getD j { formattedValue := none }) = p.2) ∧
    (∀ j, j < min vs.length hs.length → hs.getD j "" ≠ "" →
      cellText (vs.getD j { formattedValue := none }) ≠ "" →
      ∃ v, (hs.getD j "", v) ∈ buildRecord hs vs) := by
  have hlen : (hs.zip (vs.map cellText)).length = min vs.length hs.length := by
    rw [List.length_zip, List.length_map]
    exact Nat.min_comm _ _
  have hget : ∀ (j : Nat) (hj : j < (hs.zip (vs.map cellText)).length),
      (hs.zip (vs.map cellText)).get ⟨j, hj⟩ =
      (hs.getD j "", cellText (vs.getD j { formattedValue := none })) := by
    intro j hj
    have hj1 : j < hs.length := by
      rw [List.length_zip, List.length_map] at hj
      omega
    have hj2 : j < vs.length := by
      rw [List.length_zip, List.length_map] at hj
      omega
    rw [List.get_eq_getElem, List.getElem_zip, List.getElem_map,
      List.getD_eq_getElem hs "" hj1, List.getD_eq_getElem vs _ hj2]
  constructor
  · intro p hp
    rw [buildRecord_eq_foldl] at hp
    rcases mem_foldl_recordStep _ _ _ hp with h0 | ⟨hz, h1, h2⟩
    · exact absurd h0 (List.not_mem_nil p)
    · refine ⟨h1, h2, ?_⟩
      obtain ⟨⟨j, hj⟩, hjz⟩ := List.mem_iff_get.mp hz
      refine ⟨j, hlen ▸ hj, ?_⟩
      have := (hget j hj).symm.trans hjz
      exact ⟨congrArg Prod.fst this, congrArg Prod.snd this⟩
  · intro j hj hkne hvne
    have hj' : j < (hs.zip (vs.map cellText)).length := hlen ▸ hj
    have hz : (hs.getD j "", cellText (vs.getD j { formattedValue := none })) ∈
        hs.zip (vs.map cellText) := by
      rw [← hget j hj']
      exact List.get_mem _ _ _
    rw [buildRecord_eq_foldl]
    exact hasKey_iff_exists.mp (hasKey_foldl_of_mem _ [] _ _ hz hkne hvne)

/-- Witness for the amended C5: column 0 of a concrete row with both
strings non-empty contributes the key Model. -/
theorem buildRecord_pairs_characterization_witness :
    ∃ v, ("Model", v) ∈ buildRecord ["Model", "Engine"]
      [{ formattedValue := some "MG" }, { formattedValue := some "1.5" }] :=
  (buildRecord_pairs_characterization ["Model", "Engine"]
    [{ formattedValue := some "MG" }, { formattedValue := some "1.5" }]).2
    0 (by decide) (by decide) (by decide)

/-! ### Claim C2 -/

/-- C2: when no refresh is in progress and the fetches fail, the refresh
propagates the failure to the caller, leaves the pricing sequence, the
recall sequence and the last-refreshed instant exactly as they were, and
exits with the in-progress flag cleared. -/
theorem loadDataIntoCache_failure_frame (cache : DataCache) (e : String)
    (now : Nat) (h : cache.loading = false) :
    (loadDataIntoCache cache (Except.error e) now).2 = Except.error e ∧
    (loadDataIntoCache cache (Except.error e) now).1.pricingData = cache.pricingData ∧
    (loadDataIntoCache cache (Except.error e) now).1.recallData = cache.recallData ∧
    (loadDataIntoCache cache (Except.error e) now).1.lastLoaded = cache.lastLoaded ∧
    (loadDataIntoCache cache (Except.error e) now).1.loading = false := by
  simp [loadDataIntoCache, h]

/-- Witness for C2 at a concrete non-empty cache. -/
theorem loadDataIntoCache_failure_frame_witness :
    (loadDataIntoCache
      { pricingData := [[("Model", "MG"), ("Engine", "1.5"), ("Price", "100")]],
        recallData := [{ id := "1", name := "MG Recall.pdf", mimeType := "application/pdf" }],
        lastLoaded := some 7, loading := false }
      (Except.error "Failed to load sheet") 99).2 = Except.error "Failed to load sheet" ∧
    (loadDataIntoCache
      { pricingData := [[("Model", "MG"), ("Engine", "1.5"), ("Price", "100")]],
        recallData := [{ id := "1", name := "MG Recall.pdf", mimeType := "application/pdf" }],
        lastLoaded := some 7, loading := false }
      (Except.error "Failed to load sheet") 99).1.pricingData =
      [[("Model", "MG"), ("Engine", "1.5"), ("Price", "100")]] ∧
    (loadDataIntoCache
      { pricingData := [[("Model", "MG"), ("Engine", "1.5"), ("Price", "100")]],
        recallData := [{ id := "1", name := "MG Recall.pdf", mimeType := "application/pdf" }],
        lastLoaded := some 7, loading := false }
      (Except.error "Failed to load sheet") 99).1.lastLoaded = some 7 := by
  have h := loadDataIntoCache_failure_frame
    { pricingData := [[("Model", "MG"), ("Engine", "1.5"), ("Price", "100")]],
      recallData := [{ id := "1", name := "MG Recall.pdf", mimeType := "application/pdf" }],
      lastLoaded := some 7, loading := false }
    "Failed to load sheet" 99 rfl
  exact ⟨h.1, h.2.1, h.2.2.2.1⟩

/-! ### Claim C3 -/

/-- C3: when a refresh is already in progress, calling refresh is a
no-op: it returns without error, the whole cache state (pricing
sequence, recall sequence, last-refreshed instant and the flag itself)
is unchanged, and the result does not depend on any fetch outcome. -/
theorem loadDataIntoCache_reentrant_noop (cache : DataCache)
    (fetchResult : FetchResult) (now : Nat) (h : cache.loading = true) :
    loadDataIntoCache cache fetchResult now = (cache, Except.ok ()) := by
  simp [loadDataIntoCache, h]

/-- Witness for C3: with the flag set, even a successful fetch changes
nothing. -/
theorem loadDataIntoCache_reentrant_noop_witness :
    loadDataIntoCache
      { pricingData := [], recallData := [], lastLoaded := some 3, loading := true }
      (Except.ok (engineOnlySheet, engineOnlySheet,
        [{ id := "1", name := "MG Recall.pdf", mimeType := "application/pdf" }])) 50 =
    ({ pricingData := [], recallData := [], lastLoaded := some 3, loading := true },
      Except.ok ()) :=
  loadDataIntoCache_reentrant_noop _ _ _ rfl

/-! ### Lemmas about the relevance search -/

lemma searchLocalData_eq (pd : List PricingRecord) (q : String) :
    searchLocalData pd q =
      (((pd.filterMap (matchEntry (jsToLower q))).mergeSort
        (fun a b => decide (b.2 ≤ a.2))).take 5).map (fun m => m.1) := rfl

lemma foldl_count {α : Type} (p : α → Bool) :
    ∀ (l : List α) (n : Nat),
      l.foldl (fun s w => if p w then s + 1 else s) n = n + l.countP p
  | [], n => by simp
  | w :: t, n => by
    rw [List.foldl_cons, List.countP_cons]
    by_cases h : p w
    · rw [if_pos h, foldl_count p t (n + 1), if_pos h]
      omega
    · rw [if_neg h, foldl_count p t n, if_neg h]
      omega

lemma scoreRecord_eq_countP (qL : String) (r : PricingRecord) :
    scoreRecord qL r = (queryTokens qL).countP
      (fun w => includesSubstr (jsToLower (jsonStringify r)) w) := by
  show (queryTokens qL).foldl
    (fun score word =>
      if includesSubstr (jsToLower (jsonStringify r)) word then score + 1
      else score) 0 = _
  rw [foldl_count]
  exact Nat.zero_add _

lemma scoreLE_trans : ∀ (a b c : PricingRecord × Nat),
    decide (b.2 ≤ a.2) = true → decide (c.2 ≤ b.2) = true →
    decide (c.2 ≤ a.2) = true := by
  intro a b c hab hbc
  rw [decide_eq_true_eq] at hab hbc ⊢
  omega

lemma scoreLE_total : ∀ (a b : PricingRecord × Nat),
    (decide (b.2 ≤ a.2) || decide (a.2 ≤ b.2)) = true := by
  intro a b
  rcases Nat.le_total a.2 b.2 with h | h <;> simp [h]

lemma filterMap_matchEntry (qL : String) :
    ∀ pd : List PricingRecord,
      pd.filterMap (matchEntry qL) =
      (pd.filter (fun r => decide (2 ≤ scoreRecord qL r))).map
        (fun r => (r, scoreRecord qL r))
  | [] => rfl
  | r :: t => by
    rw [List.filterMap_cons, List.filter_cons]
    by_cases h : 2 ≤ scoreRecord qL r
    · have hm : matchEntry qL r = some (r, scoreRecord qL r) := by
        unfold matchEntry
        rw [if_pos (by exact h)]
      rw [hm]
      rw [if_pos (by simpa using h)]
      rw [List.map_cons, filterMap_matchEntry qL t]
    · have hm : matchEntry qL r = none := by
        unfold matchEntry
        rw [if_neg (by exact h)]
      rw [hm]
      rw [if_neg (by simpa using h)]
      exact filterMap_matchEntry qL t

lemma snd_eq_score_of_mem_matchList {qL : String} {pd : List PricingRecord}
    {x : PricingRecord × Nat} (hx : x ∈ pd.filterMap (matchEntry qL)) :
    x.2 = scoreRecord qL x.1 ∧ 2 ≤ x.2 := by
  rw [filterMap_matchEntry] at hx
  rw [List.mem_map] at hx
  obtain ⟨r, hr, he⟩ := hx
  rw [List.mem_filter] at hr
  rw [← he]
  exact ⟨rfl, by simpa using hr.2⟩

/-! ### Claim C7 -/

/-- C7: the relevance score of a record equals the count, duplicates
included, of qualifying query tokens (space-separated tokens of the
lower-cased query with length greater than 2) occurring as substrings of
the lower-cased JSON text blob of the record, and a record returned by
the search always scores at least 2. -/
theorem searchLocalData_score_characterization (pd : List PricingRecord)
    (q : String) (r : PricingRecord) :
    scoreRecord (jsToLower q) r = (queryTokens (jsToLower q)).countP
      (fun w => includesSubstr (jsToLower (jsonStringify r)) w) ∧
    (r ∈ searchLocalData pd q → 2 ≤ scoreRecord (jsToLower q) r) := by
  refine ⟨scoreRecord_eq_countP _ _, ?_⟩
  intro hr
  rw [searchLocalData_eq, List.mem_map] at hr
  obtain ⟨x, hx, he⟩ := hr
  have hx' : x ∈ pd.filterMap (matchEntry (jsToLower q)) :=
    List.mem_mergeSort.mp (List.take_subset _ _ hx)
  have h2 := snd_eq_score_of_mem_matchList hx'
  rw [← he, ← h2.1]
  exact h2.2
/-- Witness for C7: a record returned for a concrete query scores at
least 2. -/
theorem searchLocalData_score_characterization_witness :
    2 ≤ scoreRecord (jsToLower "interim service") interimRecord :=
  (searchLocalData_score_characterization [interimRecord] "interim service"
    interimRecord).2 (by
      have h1 : [interimRecord].filterMap (matchEntry (jsToLower "interim service")) =
          [(interimRecord, 2)] := by decide
      rw [searchLocalData_eq, h1, List.mergeSort_singleton]
      decide)

/-! ### Claim C8 -/

/-- C8: searchRecalls returns exactly the cached recall descriptors
whose lower-cased name contains at least one qualifying query token as a
substring, in cache order (the result is a sublist of the cache
sequence). -/
theorem searchRecalls_characterization (recallData : List DriveFile)
    (q : String) :
    (searchRecalls recallData q).Sublist recallData ∧
    ∀ f : DriveFile, f ∈ searchRecalls recallData q ↔
      f ∈ recallData ∧ ∃ w ∈ queryTokens (jsToLower q),
        includesSubstr (jsToLower f.name) w = true := by
  constructor
  · exact List.filter_sublist _
  · intro f
    simp only [searchRecalls, List.mem_filter, List.any_eq_true]
/-- Witness for C8: a file whose name contains a qualifying token is
returned for a concrete query. -/
theorem searchRecalls_characterization_witness :
    mgRecallFile ∈ searchRecalls [mgRecallFile] "recall MG HS" :=
  ((searchRecalls_characterization [mgRecallFile] "recall MG HS").2
    mgRecallFile).mpr ⟨by decide, "recall", by decide, by decide⟩

/-! ### Claim C10 -/
/-- C10: duplicate query tokens are each counted: the query made of the
same qualifying token twice gives score 2 to a record whose blob
contains that token, so the record passes the minimum-overlap gate and
is returned. -/
theorem searchLocalData_duplicate_tokens_counted :
    queryTokens (jsToLower "turbo turbo") = ["turbo", "turbo"] ∧
    scoreRecord (jsToLower "turbo turbo") turboRecord = 2 ∧
    searchLocalData [turboRecord] "turbo turbo" = [turboRecord] := by
  refine ⟨by decide, by decide, ?_⟩
  have h1 : [turboRecord].filterMap (matchEntry (jsToLower "turbo turbo")) =
      [(turboRecord, 2)] := by decide
  rw [searchLocalData_eq, h1, List.mergeSort_singleton]
  decide

/-! ### Claim C6 -/

/-- C6: for every query and cache contents, searchLocalData returns at
most 5 records, sorted by descending relevance score, and among records
of equal score the original cache order is preserved: for every score
value, the returned records of that score form a sublist of the cached
records of that score, in cache order. -/
theorem searchLocalData_topK_sorted_stable (pd : List PricingRecord)
    (q : String) :
    (searchLocalData pd q).length ≤ 5 ∧
    (searchLocalData pd q).Pairwise
      (fun a b => scoreRecord (jsToLower q) b ≤ scoreRecord (jsToLower q) a) ∧
    ∀ s : Nat,
      ((searchLocalData pd q).filter
        (fun r => scoreRecord (jsToLower q) r == s)).Sublist
      (pd.filter (fun r => scoreRecord (jsToLower q) r == s)) := by
  have hout := searchLocalData_eq pd q
  have hmm : ∀ x ∈ pd.filterMap (matchEntry (jsToLower q)),
      x.2 = scoreRecord (jsToLower q) x.1 :=
    fun x hx => (snd_eq_score_of_mem_matchList hx).1
  refine ⟨?_, ?_, ?_⟩
  · rw [hout, List.length_map, List.length_take]
    exact Nat.min_le_left _ _
  · have hs1 := List.sorted_mergeSort scoreLE_trans scoreLE_total
      (pd.filterMap (matchEntry (jsToLower q)))
    have hs2 := hs1.sublist (List.take_sublist 5 _)
    have hs3 : (((pd.filterMap (matchEntry (jsToLower q))).mergeSort
        (fun a b => decide (b.2 ≤ a.2))).take 5).Pairwise
        (fun a b => scoreRecord (jsToLower q) b.1 ≤ scoreRecord (jsToLower q) a.1) := by
      refine List.Pairwise.imp_of_mem ?_ hs2
      intro a b ha hb hab
      have ha' := hmm a (List.mem_mergeSort.mp (List.take_subset _ _ ha))
      have hb' := hmm b (List.mem_mergeSort.mp (List.take_subset _ _ hb))
      rw [decide_eq_true_eq] at hab
      rw [← ha', ← hb']
      exact hab
    rw [hout]
    exact List.pairwise_map.mpr hs3
  · intro s
    have hstab1 : ((pd.filterMap (matchEntry (jsToLower q))).filter
        (fun x => x.2 == s)).Pairwise
        (fun a b => decide (b.2 ≤ a.2) = true) := by
      apply List.pairwise_of_forall_mem_list
      intro a ha b hb
      rw [List.mem_filter] at ha hb
      have ha2 : a.2 = s := by simpa using ha.2
      have hb2 : b.2 = s := by simpa using hb.2
      rw [decide_eq_true_eq, ha2, hb2]
    have hstab2 : (((pd.filterMap (matchEntry (jsToLower q))).filter
        (fun x => x.2 == s)).Sublist
        ((pd.filterMap (matchEntry (jsToLower q))).mergeSort
          (fun a b => decide (b.2 ≤ a.2)))) :=
      List.sublist_mergeSort scoreLE_trans scoreLE_total hstab1
        (List.filter_sublist _)
    have hstab3 : (((pd.filterMap (matchEntry (jsToLower q))).filter
        (fun x => x.2 == s)).Sublist
        (((pd.filterMap (matchEntry (jsToLower q))).mergeSort
          (fun a b => decide (b.2 ≤ a.2))).filter (fun x => x.2 == s))) := by
      have h := hstab2.filter (fun x => x.2 == s)
      rwa [List.filter_filter, List.filter_congr
        (fun x _ => by rw [Bool.and_self])] at h
    have heqlen : ((((pd.filterMap (matchEntry (jsToLower q))).mergeSort
        (fun a b => decide (b.2 ≤ a.2))).filter (fun x => x.2 == s)).length) =
        (((pd.filterMap (matchEntry (jsToLower q))).filter
          (fun x => x.2 == s)).length) := by
      rw [← List.countP_eq_length_filter, ← List.countP_eq_length_filter]
      exact List.Perm.countP_eq _ (List.mergeSort_perm _ _)
    have hstab4 : ((pd.filterMap (matchEntry (jsToLower q))).filter
        (fun x => x.2 == s)) =
        (((pd.filterMap (matchEntry (jsToLower q))).mergeSort
          (fun a b => decide (b.2 ≤ a.2))).filter (fun x => x.2 == s)) :=
      hstab3.eq_of_length heqlen.symm
    rw [hout, List.filter_map]
    have hcc : ∀ x ∈ (((pd.filterMap (matchEntry (jsToLower q))).mergeSort
        (fun a b => decide (b.2 ≤ a.2))).take 5),
        ((fun r => scoreRecord (jsToLower q) r == s) ∘ (fun m => m.1)) x =
        (fun x => x.2 == s) x := by
      intro x hx
      have hx' := hmm x (List.mem_mergeSort.mp (List.take_subset _ _ hx))
      simp only [Function.comp_apply]
      rw [hx']
    rw [List.filter_congr hcc]
    have h5 : (((((pd.filterMap (matchEntry (jsToLower q))).mergeSort
        (fun a b => decide (b.2 ≤ a.2))).take 5).filter (fun x => x.2 == s)).Sublist
        ((pd.filterMap (matchEntry (jsToLower q))).filter (fun x => x.2 == s))) := by
      rw [hstab4]
      exact (List.take_sublist 5 _).filter _
    have hmlc : ((pd.filterMap (matchEntry (jsToLower q))).filter
        (fun x => x.2 == s)) =
        (((pd.filter (fun r => decide (2 ≤ scoreRecord (jsToLower q) r))).filter
          (fun r => scoreRecord (jsToLower q) r == s)).map
          (fun r => (r, scoreRecord (jsToLower q) r))) := by
      rw [filterMap_matchEntry, List.filter_map]
      rfl
    have h6 := h5.map (fun m => m.1)
    rw [hmlc, List.map_map] at h6
    have h7 : (((pd.filter (fun r => decide (2 ≤ scoreRecord (jsToLower q) r))).filter
        (fun r => scoreRecord (jsToLower q) r == s)).map
        ((fun m : PricingRecord × Nat => m.1) ∘
          (fun r => (r, scoreRecord (jsToLower q) r)))) =
        ((pd.filter (fun r => decide (2 ≤ scoreRecord (jsToLower q) r))).filter
          (fun r => scoreRecord (jsToLower q) r == s)) := by
      rw [show ((fun m : PricingRecord × Nat => m.1) ∘
        (fun r : PricingRecord => (r, scoreRecord (jsToLower q) r))) = id from rfl]
      exact List.map_id _
    rw [h7] at h6
    exact h6.trans ((List.filter_sublist pd).filter _)

/-! ### Substring reasoning for the header test of C4 -/
lemma pipeJoin_cons_cons (x y : List Char) (rest : List (List Char)) :
    pipeJoin (x :: y :: rest) = x ++ '|' :: pipeJoin (y :: rest) := rfl

lemma string_data_append (a b : String) : (a ++ b).data = a.data ++ b.data := rfl

lemma jsToLower_data (s : String) : (jsToLower s).data = s.data.map Char.toLower := rfl

lemma intercalate_go_data (s : String) :
    ∀ (as : List String) (acc : String),
      (String.intercalate.go acc s as).data =
        acc.data ++ as.flatMap (fun a => s.data ++ a.data)
  | [], acc => by
    rw [String.intercalate.go]
    simp
  | a :: as, acc => by
    rw [String.intercalate.go]
    rw [intercalate_go_data s as (acc ++ s ++ a)]
    simp [string_data_append]

lemma intercalate_pipe_data (l : List String) :
    (String.intercalate "|" l).data = pipeJoin (l.map String.data) := by
  cases l with
  | nil => rfl
  | cons a as =>
    show (String.intercalate.go a "|" as).data =
      a.data ++ (as.map String.data).flatMap (fun y => '|' :: y)
    rw [intercalate_go_data, List.flatMap_map]
    rfl

lemma map_pipeJoin (f : Char → Char) (hf : f '|' = '|') :
    ∀ (parts : List (List Char)),
      (pipeJoin parts).map f = pipeJoin (parts.map (List.map f))
  | [] => rfl
  | [x] => by
    show (x ++ [].flatMap (fun y => '|' :: y)).map f = _
    simp [pipeJoin]
  | x :: y :: rest => by
    rw [pipeJoin_cons_cons, List.map_append, List.map_cons, hf,
      map_pipeJoin f hf (y :: rest)]
    simp [pipeJoin_cons_cons]

lemma prefix_of_prefix_append_cons {α : Type} {c : α} {p u v : List α}
    (hc : c ∉ p) (h : p.IsPrefix (u ++ c :: v)) : p.IsPrefix u := by
  have hlen : p.length ≤ u.length := by
    by_contra hgt
    push_neg at hgt
    have hg := h.getElem (n := u.length) hgt
    rw [List.getElem_append_right (Nat.le_refl _)] at hg
    simp only [Nat.sub_self, List.getElem_cons_zero] at hg
    exact hc (hg ▸ List.getElem_mem hgt)
  exact List.prefix_of_prefix_length_le h (List.prefix_append u (c :: v)) hlen

lemma infix_append_cons_split {α : Type} {c : α} {p v : List α} (hc : c ∉ p) :
    ∀ (u : List α), p.IsInfix (u ++ c :: v) → p.IsInfix u ∨ p.IsInfix v
  | [], h => by
    rw [List.nil_append] at h
    rcases List.infix_cons_iff.mp h with hpre | hinf
    · left
      have hp : p.IsPrefix (([] : List α) ++ c :: v) := by
        rw [List.nil_append]
        exact hpre
      have := prefix_of_prefix_append_cons hc hp
      rw [List.prefix_nil] at this
      simp [this]
    · exact Or.inr hinf
  | a :: u, h => by
    rw [List.cons_append] at h
    rcases List.infix_cons_iff.mp h with hpre | hinf
    · left
      have hp : p.IsPrefix ((a :: u) ++ c :: v) := by
        rw [List.cons_append]
        exact hpre
      exact (prefix_of_prefix_append_cons hc hp).isInfix
    · rcases infix_append_cons_split hc u hinf with h1 | h2
      · exact Or.inl (List.infix_cons h1)
      · exact Or.inr h2

lemma infix_pipeJoin {p : List Char} (hp : p ≠ []) (hc : ('|' : Char) ∉ p) :
    ∀ (parts : List (List Char)), p.IsInfix (pipeJoin parts) →
      ∃ x ∈ parts, p.IsInfix x
  | [], h => by
    unfold pipeJoin at h
    rw [List.infix_nil] at h
    exact absurd h hp
  | [x], h => by
    refine ⟨x, List.mem_cons_self _ _, ?_⟩
    unfold pipeJoin at h
    simpa using h
  | x :: y :: rest, h => by
    rw [pipeJoin_cons_cons] at h
    rcases infix_append_cons_split hc x h with h1 | h2
    · exact ⟨x, List.mem_cons_self _ _, h1⟩
    · obtain ⟨z, hz, hinf⟩ := infix_pipeJoin hp hc (y :: rest) h2
      exact ⟨z, List.mem_cons_of_mem _ hz, hinf⟩

lemma includesSubstr_iff_infixList (s pat : String) :
    includesSubstr s pat = true ↔ pat.toList.IsInfix s.toList := by
  unfold includesSubstr
  rw [List.any_eq_true]
  constructor
  · rintro ⟨i, hi, hp⟩
    rw [List.isPrefixOf_iff_prefix] at hp
    obtain ⟨t, ht⟩ := hp
    exact ⟨s.toList.take i, t, by rw [List.append_assoc, ht, List.take_append_drop]⟩
  · rintro ⟨a, b, he⟩
    refine ⟨a.length, ?_, ?_⟩
    · rw [List.mem_range]
      have hl : a.length ≤ s.toList.length := by
        rw [← he]
        simp
      omega
    · rw [List.isPrefixOf_iff_prefix, ← he, List.append_assoc, List.drop_left]
      exact List.prefix_append _ _

lemma rowJoinedText_data (row : RowData) :
    (rowJoinedText row).data =
      pipeJoin ((rowCells row).map (fun c => (jsToLower (cellText c)).data)) := by
  unfold rowJoinedText
  rw [jsToLower_data, intercalate_pipe_data,
    map_pipeJoin Char.toLower (by decide), List.map_map, List.map_map]
  rfl

lemma includesSubstr_rowJoinedText_false (row : RowData) (pat : String)
    (hne : pat.toList ≠ []) (hnp : ('|' : Char) ∉ pat.toList)
    (hcell : ∀ c ∈ rowCells row, includesSubstr (jsToLower (cellText c)) pat = false) :
    includesSubstr (rowJoinedText row) pat = false := by
  by_contra hinc
  rw [Bool.not_eq_false, includesSubstr_iff_infixList] at hinc
  have hdata : (rowJoinedText row).toList =
      pipeJoin ((rowCells row).map (fun c => (jsToLower (cellText c)).data)) :=
    rowJoinedText_data row
  rw [hdata] at hinc
  obtain ⟨x, hx, hinf⟩ := infix_pipeJoin hne hnp _ hinc
  rw [List.mem_map] at hx
  obtain ⟨c, hc, he⟩ := hx
  have ht : includesSubstr (jsToLower (cellText c)) pat = true := by
    rw [includesSubstr_iff_infixList]
    show pat.toList.IsInfix (jsToLower (cellText c)).data
    rw [he]
    exact hinf
  rw [hcell c hc] at ht
  exact Bool.false_ne_true ht

lemma isHeaderRow_eq_false_of_cells (row : RowData)
    (h : ∀ c ∈ rowCells row,
      includesSubstr (jsToLower (cellText c)) "model" = false ∧
      includesSubstr (jsToLower (cellText c)) "engine" = false) :
    isHeaderRow row = false := by
  unfold isHeaderRow
  rw [includesSubstr_rowJoinedText_false row "model" (by decide) (by decide)
    (fun c hc => (h c hc).1)]
  rw [includesSubstr_rowJoinedText_false row "engine" (by decide) (by decide)
    (fun c hc => (h c hc).2)]
  rfl

/-! ### Claim C4 -/

/-- C4: when no cell of any of the first 5 rows of a range contains,
lower-cased, the substring model or the substring engine, the header
search fails and the range produces zero records. -/
theorem parseSheetRange_no_header_eq_nil (rows : List RowData)
    (h : ∀ row ∈ rows.take 5, ∀ c ∈ rowCells row,
      includesSubstr (jsToLower (cellText c)) "model" = false ∧
      includesSubstr (jsToLower (cellText c)) "engine" = false) :
    parseSheetRange rows = [] :=
  parseSheetRange_no_headerRow rows
    (fun row hrow => isHeaderRow_eq_false_of_cells row (h row hrow))

/-- Witness for C4: a two-row range without the header keywords in any
cell produces no records. -/
theorem parseSheetRange_no_header_eq_nil_witness :
    (∀ row ∈ ([mkRow ["Name", "Price"], mkRow ["A", "1"]] : List RowData).take 5,
      ∀ c ∈ rowCells row,
        includesSubstr (jsToLower (cellText c)) "model" = false ∧
        includesSubstr (jsToLower (cellText c)) "engine" = false) ∧
    parseSheetRange [mkRow ["Name", "Price"], mkRow ["A", "1"]] = [] :=
  ⟨by decide, parseSheetRange_no_header_eq_nil _ (by decide)⟩
